import Mathlib

/-!
# Verification of the SecureByte parallel chunk processor

A shallow embedding of
`SecureByte_Parallel_Processing_Tester/parallel_chunk_processor.py`:
the AST-based chunker (`chunk_code_by_ast`), the line-window fallback
chunker (`chunk_code_by_lines`), the per-chunk analysis task
(`analyze_chunk`), and the orchestrating entry point
(`main_analysis_function`).

Python strings are modelled by Lean `String` (operations work on the
underlying `List Char`); sources are assumed to use `"\n"` line
terminators (no `"\r"`, no form feeds), matching the repository's files.
Python's `ast.parse` is external to the repository, so it enters the
embedding as an oracle value: an `Option PyTree` standing for the parse
outcome of the source text (`none` = `SyntaxError`).  The OpenAI client
is likewise external and enters as a function from chunk number and
chunk text to a `ClientResult` (success, `OpenAIError`, or any other
exception).
-/

namespace SecureByte

/-! ## Python string primitives -/

/-- Core of Python `str.strip()`: drop whitespace from both ends of a
character list. -/
def stripCore (cs : List Char) : List Char :=
  ((cs.dropWhile Char.isWhitespace).reverse.dropWhile Char.isWhitespace).reverse

/-- Python `str.strip()` (no arguments: strips whitespace). -/
def pyStrip (s : String) : String :=
  String.mk (stripCore s.data)

/-- Core of Python `str.splitlines()` for `"\n"`-terminated text: split at
every `'\n'`; a trailing newline does not open a final empty line.
`acc` holds the characters of the current line, reversed. -/
def splitCore : List Char → List Char → List (List Char)
  | [], acc => if acc.isEmpty then [] else [acc.reverse]
  | c :: rest, acc =>
    if c = '\n' then acc.reverse :: splitCore rest []
    else splitCore rest (c :: acc)

/-- Python `str.splitlines()` (restricted to `"\n"` separators, the only
line terminator appearing in the analyzed sources). -/
def pySplitlines (s : String) : List String :=
  (splitCore s.data []).map String.mk

/-- Python `"\n".join(lines)`. -/
def pyJoin : List String → String
  | [] => ""
  | [s] => s
  | s :: t :: rest => s ++ "\n" ++ pyJoin (t :: rest)

/-- Python `s.startswith(p)` for a single pattern. -/
def pyStartsWith (s p : String) : Bool :=
  p.data.isPrefixOf s.data

/-- The predicate `line.strip().startswith(('import ', 'from '))` used by
`chunk_code_by_ast` to pick out import-style lines. -/
def isImportLine (line : String) : Bool :=
  pyStartsWith (pyStrip line) "import " || pyStartsWith (pyStrip line) "from "

/-! ## The fallback chunker (`chunk_code_by_lines`, lines 97-106) -/

/-- `chunk_code_by_lines`: the loop `for i in range(0, len(lines),
lines_per_chunk)` visits the strides `0, k, 2k, …` — the `j`-th visited
index is `j * k`, and there are `⌈len(lines) / k⌉` of them — and appends
`"\n".join(lines[i:i+k])` for each.  (For `k = 0` the Python `range`
would raise `ValueError`; the definition returns `[]` there, a case no
caller reaches — the only call sites use `k = 200`.) -/
def chunk_code_by_lines (code_string : String) (lines_per_chunk : Nat := 200) :
    List String :=
  let lines := pySplitlines code_string
  (List.range ((lines.length + lines_per_chunk - 1) / lines_per_chunk)).map
    (fun j => pyJoin ((lines.drop (j * lines_per_chunk)).take lines_per_chunk))

/-! ## The AST oracle -/

/-- Location data of a top-level `FunctionDef` / `AsyncFunctionDef` /
`ClassDef` node as supplied by Python's `ast` module: 1-based line
numbers (`end_lineno` inclusive), 0-based character column offsets. -/
structure DeclNode where
  lineno : Nat
  end_lineno : Nat
  col_offset : Nat
  end_col_offset : Nat
deriving DecidableEq, Repr

/-- A top-level node of the parsed module body: either a
function/class declaration (the only kind `chunk_code_by_ast`
inspects) or any other statement (`Import`, `Assign`, `Expr`, ... —
the loop body executes `pass` on those). -/
inductive PyNode where
  | decl (d : DeclNode)
  | stmt
deriving DecidableEq, Repr

/-- The module object returned by a successful `ast.parse`. -/
structure PyTree where
  body : List PyNode
deriving DecidableEq, Repr

/-- Models `ast.get_source_segment(code_string, node)` for a node
carrying complete location info: lines `lineno..end_lineno`, the first
line starting at `col_offset`, the last line cut at `end_col_offset`. -/
def get_source_segment (code_string : String) (n : DeclNode) : String :=
  let lines := pySplitlines code_string
  if n.lineno = n.end_lineno then
    String.mk (((lines.getD (n.lineno - 1) "").data.drop n.col_offset).take
      (n.end_col_offset - n.col_offset))
  else
    let first := String.mk ((lines.getD (n.lineno - 1) "").data.drop n.col_offset)
    let middle := (lines.drop n.lineno).take (n.end_lineno - 1 - n.lineno)
    let last := String.mk ((lines.getD (n.end_lineno - 1) "").data.take n.end_col_offset)
    pyJoin (first :: (middle ++ [last]))

/-! ## The structural chunker (`chunk_code_by_ast`, lines 29-95) -/

/-- The loop state of `chunk_code_by_ast`: emitted chunks, the
pending import lines (`top_level_code`), and `last_node_end`. -/
structure ChunkState where
  chunks : List String
  top_level_code : List String
  last_node_end : Nat
deriving DecidableEq, Repr

/-- One iteration of the `for node in tree.body` loop.  Non-declaration
nodes fall into the `else: pass` branch.  For a declaration:
flush the gap of source lines since `last_node_end` (buffering lines
when the gap contains any import-style line — only those lines — and
emitting the gap as its own chunk otherwise), then emit the
declaration's source segment prefixed with the pending imports, and
advance `last_node_end` to the node's `end_lineno`. -/
def processNode (code_string : String) (st : ChunkState) : PyNode → ChunkState
  | .stmt => st
  | .decl n =>
    let node_start_line := n.lineno - 1
    let st1 :=
      if node_start_line > st.last_node_end then
        let top_level_chunk_lines :=
          ((pySplitlines code_string).drop st.last_node_end).take
            (node_start_line - st.last_node_end)
        let top_level_chunk := pyStrip (pyJoin top_level_chunk_lines)
        if top_level_chunk ≠ "" then
          let import_lines := (pySplitlines top_level_chunk).filter isImportLine
          if import_lines ≠ [] then
            { st with top_level_code := st.top_level_code ++ import_lines }
          else
            let flushed :=
              if st.top_level_code ≠ [] then
                pyJoin st.top_level_code ++ "\n" ++ top_level_chunk
              else top_level_chunk
            { st with chunks := st.chunks ++ [flushed], top_level_code := [] }
        else st
      else st
    let imports :=
      if st1.top_level_code ≠ [] then pyJoin st1.top_level_code ++ "\n" else ""
    let chunk_str := get_source_segment code_string n
    let st2 :=
      if chunk_str ≠ "" then
        { st1 with chunks := st1.chunks ++ [imports ++ chunk_str],
                   top_level_code := [] }
      else st1
    { st2 with last_node_end := n.end_lineno }

/-- The chunk list computed inside the `try` block of
`chunk_code_by_ast` from a successfully parsed tree: run the loop over
`tree.body`, then flush any remaining trailing source as a final chunk
(prefixed with pending imports). -/
def astChunks (code_string : String) (tree : PyTree) : List String :=
  let final := tree.body.foldl (processNode code_string) ⟨[], [], 0⟩
  let remaining_code :=
    pyStrip (pyJoin ((pySplitlines code_string).drop final.last_node_end))
  if remaining_code ≠ "" then
    let remaining :=
      if final.top_level_code ≠ [] then
        pyJoin final.top_level_code ++ "\n" ++ remaining_code
      else remaining_code
    final.chunks ++ [remaining]
  else final.chunks

/-- `chunk_code_by_ast`: `parse` is the outcome of `ast.parse
code_string` (`none` = `SyntaxError`).  A parse failure, or a parse that
yields zero chunks (the in-body `raise SyntaxError`), is caught by the
`except (SyntaxError, ValueError)` handler, which falls back to
`chunk_code_by_lines(code_string, 200)`. -/
def chunk_code_by_ast (code_string : String) (parse : Option PyTree) : List String :=
  match parse with
  | none => chunk_code_by_lines code_string 200
  | some tree =>
    let chunks := astChunks code_string tree
    if chunks = [] then chunk_code_by_lines code_string 200 else chunks

/-! ## The per-chunk analysis task (`analyze_chunk`, lines 110-137) -/

/-- Behavior of `client.chat.completions.create` on one call: a
successful response text, an `OpenAIError`, or any other exception
(the two `except` arms of `analyze_chunk`). -/
inductive ClientResult where
  | ok (analysis : String)
  | openAIError (msg : String)
  | otherError (msg : String)
deriving DecidableEq, Repr

/-- The external OpenAI client, as observed by `analyze_chunk`: a
function from the chunk number and the chunk text sent as the user
message to the call's outcome. -/
def AnalysisClient : Type := Nat → String → ClientResult

/-- The per-chunk result dict `{"chunk": ..., "analysis": ...}`. -/
structure Outcome where
  chunk : Nat
  analysis : String
deriving DecidableEq, Repr

/-- An exception escaping a coroutine (the only one reachable in
`analyze_chunk` outside its `try` block is the `IndexError` from
`chunk_content.strip().splitlines()[0]`). -/
inductive PyError where
  | indexError
deriving DecidableEq, Repr

/-- `analyze_chunk`: take the first line of the stripped chunk for the
console log — an `IndexError` escapes if the stripped chunk has no
lines — then call the client inside `try`, converting `OpenAIError`
and any other exception into an error-text outcome. -/
def analyze_chunk (client : AnalysisClient) (chunk_content : String)
    (chunk_number : Nat) : Except PyError Outcome :=
  match pySplitlines (pyStrip chunk_content) with
  | [] => .error .indexError
  | _first_line :: _ =>
    match client chunk_number chunk_content with
    | .ok analysis => .ok ⟨chunk_number, analysis⟩
    | .openAIError e => .ok ⟨chunk_number, "Error: Could not analyze chunk. " ++ e⟩
    | .otherError e => .ok ⟨chunk_number, "Error: An unexpected error occurred. " ++ e⟩

/-! ## Orchestration (`main_analysis_function`, lines 145-191) -/

/-- The task list `[analyze_chunk(chunk, i + 1) for i, chunk in
enumerate(chunks)]`, built with a running 0-based position `i` so that
chunk numbers are `i + 1`. -/
def make_tasks (client : AnalysisClient) : Nat → List String → List (Except PyError Outcome)
  | _, [] => []
  | i, c :: cs => analyze_chunk client c (i + 1) :: make_tasks client (i + 1) cs

/-- `await asyncio.gather(*tasks)` (default `return_exceptions=False`):
the list of all task results when every task completes normally, or a
propagated exception when any task raises one. -/
def gather : List (Except PyError Outcome) → Except PyError (List Outcome)
  | [] => .ok []
  | t :: ts =>
    match t with
    | .error e => .error e
    | .ok o =>
      match gather ts with
      | .ok os => .ok (o :: os)
      | .error e => .error e

/-- The sort key comparison behind
`results.sort(key=lambda x: x["chunk"])`. -/
def outcome_key_le (a b : Outcome) : Prop := a.chunk ≤ b.chunk

instance : DecidableRel outcome_key_le := fun a b => Nat.decLe a.chunk b.chunk

instance : IsTotal Outcome outcome_key_le := ⟨fun a b => Nat.le_total a.chunk b.chunk⟩

instance : IsTrans Outcome outcome_key_le := ⟨fun _ _ _ => Nat.le_trans⟩

/-- The aggregation step `results.sort(key=lambda x: x["chunk"])`:
a stable sort ascending by chunk number (Python's `list.sort` is
stable; so is `List.insertionSort`). -/
def aggregate_results (results : List Outcome) : List Outcome :=
  results.insertionSort outcome_key_le

/-- Observable behavior of one run of
`asyncio.run(main_analysis_function(filepath))`:
whether `chunk_code_by_ast` was reached, the report sections printed
(in order) when the run completes, and the process exit status (0 on
normal return of `main_analysis_function`, 1 when an exception
propagates out of `asyncio.run`). -/
structure RunResult where
  chunkingStarted : Bool
  report : Option (List Outcome)
  exitCode : Nat
deriving DecidableEq, Repr

/-- `main_analysis_function`.  `fileContents` models
`open(filepath).read()` — `none` when `open`/`read` raises
(`FileNotFoundError` or any other `Exception`), in which case the
function prints an error message and returns normally *before* any
chunking.  Otherwise it chunks, dispatches all per-chunk tasks,
gathers them, sorts the results by chunk number and prints one
labeled section per outcome in that order. -/
def main_analysis_function (fileContents : Option String) (parse : Option PyTree)
    (client : AnalysisClient) : RunResult :=
  match fileContents with
  | none => ⟨false, none, 0⟩
  | some code_to_analyze =>
    let chunks := chunk_code_by_ast code_to_analyze parse
    let tasks := make_tasks client 0 chunks
    match gather tasks with
    | .error _ => ⟨true, none, 1⟩
    | .ok results => ⟨true, some (aggregate_results results), 0⟩

/-! ## Derived notions used by the verification -/

/-- A string containing at least one non-whitespace character (the
precondition under which `analyze_chunk` reaches its `try` block). -/
def hasContent (s : String) : Bool :=
  s.data.any (fun ch => !ch.isWhitespace)

/-- The outcome `analyze_chunk` produces for a chunk whose stripped
text is non-empty, as a function of the client's response. -/
def expected_outcome (client : AnalysisClient) (c : String) (n : Nat) : Outcome :=
  match client n c with
  | .ok analysis => ⟨n, analysis⟩
  | .openAIError e => ⟨n, "Error: Could not analyze chunk. " ++ e⟩
  | .otherError e => ⟨n, "Error: An unexpected error occurred. " ++ e⟩

/-- The outcome list of a full task batch over `chunks`, positions
numbered from `i + 1`. -/
def expected_outcomes (client : AnalysisClient) : Nat → List String → List Outcome
  | _, [] => []
  | i, c :: cs =>
    expected_outcome client c (i + 1) :: expected_outcomes client (i + 1) cs

/-- An outcome text marking a failed chunk: the two diagnostic shapes
produced by the `except` arms of `analyze_chunk`. -/
def isFailureText (s : String) : Bool :=
  pyStartsWith s "Error: Could not analyze chunk. "
  || pyStartsWith s "Error: An unexpected error occurred. "

/-- Well-formedness of a declaration walk relative to `code`, starting
from previous end line `e`: every gap of source lines strictly between
`e` and the next declaration strips to the empty string (whitespace
only — no statements and no comment lines), and every declaration's
source segment is non-empty. -/
def declGapsBlank (code : String) : Nat → List DeclNode → Bool
  | _, [] => true
  | e, d :: rest =>
    (decide (d.lineno - 1 ≤ e)
      || decide (pyStrip (pyJoin (((pySplitlines code).drop e).take (d.lineno - 1 - e))) = ""))
    && decide (get_source_segment code d ≠ "")
    && declGapsBlank code d.end_lineno rest

/-- The value of `last_node_end` after walking the declarations. -/
def finalEnd : Nat → List DeclNode → Nat
  | e, [] => e
  | _, d :: rest => finalEnd d.end_lineno rest

/-! ## Lemmas about the fallback chunker -/

lemma chunk_code_by_lines_length (s : String) (k : Nat) :
    (chunk_code_by_lines s k).length = ((pySplitlines s).length + k - 1) / k := by
  simp [chunk_code_by_lines]

lemma chunk_code_by_lines_get (s : String) (k i : Nat)
    (h : i < (chunk_code_by_lines s k).length) :
    (chunk_code_by_lines s k).get ⟨i, h⟩
      = pyJoin (((pySplitlines s).drop (i * k)).take k) := by
  simp only [chunk_code_by_lines, List.get_eq_getElem, List.getElem_map,
    List.getElem_range]

lemma stride_lt_length {n k i : Nat} (hk : k ≠ 0) (h : i < (n + k - 1) / k) :
    i * k < n := by
  have hkpos : 0 < k := Nat.pos_of_ne_zero hk
  have h' : i + 1 ≤ (n + k - 1) / k := h
  have := (Nat.le_div_iff_mul_le hkpos).mp h'
  have hmul : (i + 1) * k ≤ n + k - 1 := this
  rw [show (i + 1) * k = i * k + k from by ring] at hmul
  omega

lemma stride_window_sizes (s : String) (k i : Nat) (hk : k ≠ 0)
    (h : i < (chunk_code_by_lines s k).length) :
    1 ≤ (((pySplitlines s).drop (i * k)).take k).length
    ∧ (((pySplitlines s).drop (i * k)).take k).length ≤ k
    ∧ (i + 1 < (chunk_code_by_lines s k).length →
        (((pySplitlines s).drop (i * k)).take k).length = k) := by
  have hkpos : 0 < k := Nat.pos_of_ne_zero hk
  rw [chunk_code_by_lines_length] at h
  have hlt : i * k < (pySplitlines s).length := stride_lt_length hk h
  refine ⟨?_, ?_, ?_⟩
  · simp only [List.length_take, List.length_drop]
    omega
  · simp only [List.length_take, List.length_drop]
    omega
  · intro h2
    rw [chunk_code_by_lines_length] at h2
    have hlt2 : (i + 1) * k < (pySplitlines s).length := stride_lt_length hk h2
    simp only [List.length_take, List.length_drop]
    have : (i + 1) * k = i * k + k := by ring
    omega

/-! ## Basic string lemmas -/

lemma data_eq_nil_iff (s : String) : s.data = [] ↔ s = "" := by
  cases s with
  | mk d =>
    constructor
    · intro h
      exact congrArg String.mk h
    · intro h
      rw [show ("" : String) = String.mk [] from rfl] at h
      injection h

lemma splitCore_ne_nil (cs : List Char) :
    ∀ acc : List Char, cs ≠ [] ∨ acc ≠ [] → splitCore cs acc ≠ [] := by
  induction cs with
  | nil =>
    intro acc h
    have hacc : acc ≠ [] := h.resolve_left (fun hn => hn rfl)
    simp [splitCore, List.isEmpty_iff, hacc]
  | cons c rest ih =>
    intro acc _h
    by_cases hc : c = '\n'
    · simp [splitCore, hc]
    · simp only [splitCore, if_neg hc]
      exact ih (c :: acc) (Or.inr (by simp))

lemma pySplitlines_ne_nil (s : String) (h : s ≠ "") : pySplitlines s ≠ [] := by
  have hd : s.data ≠ [] := fun hn => h ((data_eq_nil_iff s).mp hn)
  simp only [pySplitlines, ne_eq, List.map_eq_nil_iff]
  exact splitCore_ne_nil s.data [] (Or.inl hd)

lemma pySplitlines_empty : pySplitlines "" = [] := rfl

/-! ## Claim theorems: fallback chunker -/

/-- C5: for every text and window size `k ≥ 1`, `chunk_code_by_lines`
splits the text's lines into contiguous non-overlapping windows: there
are `⌈lines/k⌉` chunks, the `i`-th chunk (in window order) is the join
of the line slice `lines[i*k : i*k + k]`, every window except possibly
the final one has exactly `k` lines and the final one has between `1`
and `k`; the empty input yields zero chunks and every non-empty input
yields at least one. -/
theorem C5_fallback_chunker_windows (code_string : String) (k : Nat) (hk : 1 ≤ k) :
    (chunk_code_by_lines code_string k).length
        = ((pySplitlines code_string).length + k - 1) / k
    ∧ (∀ i, (h : i < (chunk_code_by_lines code_string k).length) →
        (chunk_code_by_lines code_string k).get ⟨i, h⟩
          = pyJoin (((pySplitlines code_string).drop (i * k)).take k))
    ∧ (∀ i, i < (chunk_code_by_lines code_string k).length →
        1 ≤ (((pySplitlines code_string).drop (i * k)).take k).length
        ∧ (((pySplitlines code_string).drop (i * k)).take k).length ≤ k
        ∧ (i + 1 < (chunk_code_by_lines code_string k).length →
            (((pySplitlines code_string).drop (i * k)).take k).length = k))
    ∧ (code_string = "" → chunk_code_by_lines code_string k = [])
    ∧ (code_string ≠ "" → chunk_code_by_lines code_string k ≠ []) := by
  have hk0 : k ≠ 0 := by omega
  refine ⟨chunk_code_by_lines_length code_string k,
    fun i h => chunk_code_by_lines_get code_string k i h,
    fun i h => stride_window_sizes code_string k i hk0 h, ?_, ?_⟩
  · intro he
    subst he
    simp only [chunk_code_by_lines, pySplitlines_empty, List.length_nil]
    rw [Nat.div_eq_of_lt (by omega : 0 + k - 1 < k)]
    rfl
  · intro hne
    have hlines := pySplitlines_ne_nil code_string hne
    have hpos : 1 ≤ (pySplitlines code_string).length := List.length_pos.mpr hlines
    have hlen := chunk_code_by_lines_length code_string k
    intro hcon
    rw [hcon] at hlen
    simp only [List.length_nil] at hlen
    have : 1 ≤ ((pySplitlines code_string).length + k - 1) / k := by
      rw [Nat.le_div_iff_mul_le (by omega : 0 < k)]
      omega
    omega

set_option maxRecDepth 20000 in
/-- Witness for C5: the spec's example scenario, a 450-line input with
the default window size 200 yields 3 chunks of 200, 200 and 50 lines. -/
theorem C5_fallback_chunker_windows_witness :
    (1 ≤ 200
    ∧ ((chunk_code_by_lines (pyJoin (List.replicate 450 "x")) 200).length
        = ((pySplitlines (pyJoin (List.replicate 450 "x"))).length + 200 - 1) / 200
    ∧ (∀ i, (h : i < (chunk_code_by_lines (pyJoin (List.replicate 450 "x")) 200).length) →
        (chunk_code_by_lines (pyJoin (List.replicate 450 "x")) 200).get ⟨i, h⟩
          = pyJoin (((pySplitlines (pyJoin (List.replicate 450 "x"))).drop (i * 200)).take 200))
    ∧ (∀ i, i < (chunk_code_by_lines (pyJoin (List.replicate 450 "x")) 200).length →
        1 ≤ (((pySplitlines (pyJoin (List.replicate 450 "x"))).drop (i * 200)).take 200).length
        ∧ (((pySplitlines (pyJoin (List.replicate 450 "x"))).drop (i * 200)).take 200).length ≤ 200
        ∧ (i + 1 < (chunk_code_by_lines (pyJoin (List.replicate 450 "x")) 200).length →
            (((pySplitlines (pyJoin (List.replicate 450 "x"))).drop (i * 200)).take 200).length = 200))
    ∧ (pyJoin (List.replicate 450 "x") = "" → chunk_code_by_lines (pyJoin (List.replicate 450 "x")) 200 = [])
    ∧ (pyJoin (List.replicate 450 "x") ≠ "" → chunk_code_by_lines (pyJoin (List.replicate 450 "x")) 200 ≠ [])))
    ∧ (chunk_code_by_lines (pyJoin (List.replicate 450 "x")) 200).map
        (fun c => (pySplitlines c).length) = [200, 200, 50] :=
  ⟨⟨by omega, C5_fallback_chunker_windows (pyJoin (List.replicate 450 "x")) 200 (by omega)⟩,
    by decide⟩

/-! ## Claim theorems: facade fallback (C4) -/

/-- C4: for syntactically invalid source (a parse outcome of `none`,
i.e. `ast.parse` raised `SyntaxError`), the chunking entry point
returns exactly the chunk list of the line-based fallback chunker on
the same text with the default window size of 200 lines; the parse
failure never escapes the facade (the entry point is a total function
into chunk lists). -/
theorem C4_invalid_source_falls_back (code_string : String) :
    chunk_code_by_ast code_string none = chunk_code_by_lines code_string 200 := rfl

/-! ## Lemmas about the analysis tasks and the dispatcher -/

lemma stripCore_ne_nil_of_hasContent {s : String} (h : hasContent s = true) :
    stripCore s.data ≠ [] := by
  simp only [hasContent, List.any_eq_true, Bool.not_eq_eq_eq_not, Bool.not_true] at h
  obtain ⟨x, hx, hxw⟩ := h
  intro hnil
  unfold stripCore at hnil
  rw [List.reverse_eq_nil_iff, List.dropWhile_eq_nil_iff] at hnil
  have hall : ∀ y ∈ (s.data.dropWhile Char.isWhitespace), y.isWhitespace = true := by
    intro y hy
    exact hnil y (List.mem_reverse.mpr hy)
  have hxall : ∀ y ∈ s.data, y.isWhitespace = true := by
    intro y hy
    rw [← List.takeWhile_append_dropWhile (p := Char.isWhitespace) (l := s.data)] at hy
    rcases List.mem_append.mp hy with h1 | h2
    · exact List.mem_takeWhile_imp h1
    · exact hall y h2
  rw [hxall x hx] at hxw
  cases hxw

lemma stripCore_eq_nil_of_not_hasContent {s : String} (h : hasContent s = false) :
    stripCore s.data = [] := by
  simp only [hasContent, List.any_eq_false, Bool.not_eq_eq_eq_not, Bool.not_true] at h
  unfold stripCore
  rw [List.reverse_eq_nil_iff, List.dropWhile_eq_nil_iff]
  intro x hx
  simpa using h x (List.Sublist.mem (List.mem_reverse.mp hx) (List.dropWhile_sublist _))

lemma analyze_chunk_ok (client : AnalysisClient) (c : String) (n : Nat)
    (h : hasContent c = true) :
    analyze_chunk client c n = .ok (expected_outcome client c n) := by
  have hne : pySplitlines (pyStrip c) ≠ [] := by
    apply pySplitlines_ne_nil
    intro hcon
    have : (pyStrip c).data = [] := by rw [hcon]
    exact stripCore_ne_nil_of_hasContent h this
  obtain ⟨l, ls, he⟩ := List.exists_cons_of_ne_nil hne
  simp only [analyze_chunk, he]
  cases hcl : client n c <;> simp [expected_outcome, hcl]

lemma analyze_chunk_err (client : AnalysisClient) (c : String) (n : Nat)
    (h : hasContent c = false) :
    analyze_chunk client c n = .error .indexError := by
  have hstrip : pyStrip c = "" :=
    congrArg String.mk (stripCore_eq_nil_of_not_hasContent h)
  simp [analyze_chunk, hstrip, pySplitlines_empty]

lemma gather_make_tasks_ok (client : AnalysisClient) (chunks : List String)
    (h : ∀ c ∈ chunks, hasContent c = true) :
    ∀ i, gather (make_tasks client i chunks) = .ok (expected_outcomes client i chunks) := by
  induction chunks with
  | nil => intro i; rfl
  | cons c cs ih =>
    intro i
    simp only [make_tasks, gather, expected_outcomes]
    rw [analyze_chunk_ok client c (i + 1) (h c (by simp)),
      ih (fun x hx => h x (by simp [hx])) (i + 1)]

lemma expected_outcome_chunk (client : AnalysisClient) (c : String) (n : Nat) :
    (expected_outcome client c n).chunk = n := by
  cases hcl : client n c <;> simp [expected_outcome, hcl]

lemma expected_outcomes_map_chunk (client : AnalysisClient) (cs : List String) :
    ∀ i, (expected_outcomes client i cs).map Outcome.chunk
      = List.range' (i + 1) cs.length := by
  induction cs with
  | nil => intro i; rfl
  | cons c cs ih =>
    intro i
    simp only [expected_outcomes, List.map_cons, List.length_cons,
      List.range'_succ, expected_outcome_chunk]
    rw [ih (i + 1)]

lemma expected_outcomes_length (client : AnalysisClient) (cs : List String) (i : Nat) :
    (expected_outcomes client i cs).length = cs.length := by
  have := congrArg List.length (expected_outcomes_map_chunk client cs i)
  simpa using this

lemma expected_outcomes_getElem? (client : AnalysisClient) (cs : List String) :
    ∀ i j, (expected_outcomes client i cs)[j]?
      = cs[j]?.map (fun c => expected_outcome client c (i + j + 1)) := by
  induction cs with
  | nil => intro i j; simp [expected_outcomes]
  | cons c cs ih =>
    intro i j
    cases j with
    | zero => simp [expected_outcomes]
    | succ j' =>
      simp only [expected_outcomes, List.getElem?_cons_succ]
      rw [ih (i + 1) j']
      simp only [show i + 1 + j' + 1 = i + (j' + 1) + 1 from by omega]

/-! ## Lemmas about the aggregation step -/

lemma aggregate_perm (l : List Outcome) : (aggregate_results l).Perm l :=
  List.perm_insertionSort outcome_key_le l

lemma aggregate_sorted (l : List Outcome) :
    List.Pairwise outcome_key_le (aggregate_results l) :=
  List.sorted_insertionSort outcome_key_le l

lemma pairwise_lt_of_le_nodup {l : List Outcome}
    (hs : List.Pairwise outcome_key_le l)
    (hn : (l.map Outcome.chunk).Nodup) :
    List.Pairwise (fun a b : Outcome => a.chunk < b.chunk) l := by
  have hne : List.Pairwise (fun a b : Outcome => a.chunk ≠ b.chunk) l :=
    List.pairwise_map.mp hn
  refine (hs.and hne).imp ?_
  intro a b hab
  exact lt_of_le_of_ne hab.1 hab.2

lemma eq_of_perm_of_pairwise_lt {l₁ l₂ : List Outcome} (hp : l₁.Perm l₂)
    (h₁ : List.Pairwise (fun a b : Outcome => a.chunk < b.chunk) l₁)
    (h₂ : List.Pairwise (fun a b : Outcome => a.chunk < b.chunk) l₂) :
    l₁ = l₂ := by
  haveI : IsAntisymm Outcome (fun a b : Outcome => a.chunk < b.chunk) :=
    ⟨fun a b h1 h2 => absurd h1 (Nat.lt_asymm h2)⟩
  exact List.eq_of_perm_of_sorted hp h₁ h₂

lemma nodup_map_chunk_of_pairwise_lt {l : List Outcome}
    (h : List.Pairwise (fun a b : Outcome => a.chunk < b.chunk) l) :
    (l.map Outcome.chunk).Nodup := by
  rw [List.Nodup, List.pairwise_map]
  exact h.imp (fun hab => Nat.ne_of_lt hab)

lemma aggregate_eq_self_of_pairwise_lt {l : List Outcome}
    (h : List.Pairwise (fun a b : Outcome => a.chunk < b.chunk) l) :
    aggregate_results l = l := by
  have hn : ((aggregate_results l).map Outcome.chunk).Nodup := by
    have hperm : ((aggregate_results l).map Outcome.chunk).Perm (l.map Outcome.chunk) :=
      (aggregate_perm l).map Outcome.chunk
    exact hperm.nodup_iff.mpr (nodup_map_chunk_of_pairwise_lt h)
  exact eq_of_perm_of_pairwise_lt (aggregate_perm l)
    (pairwise_lt_of_le_nodup (aggregate_sorted l) hn) h

/-! ## Orchestration lemmas -/

lemma expected_outcomes_pairwise_lt (client : AnalysisClient) (cs : List String) (i : Nat) :
    List.Pairwise (fun a b : Outcome => a.chunk < b.chunk)
      (expected_outcomes client i cs) := by
  apply List.pairwise_map.mp
  rw [expected_outcomes_map_chunk]
  exact List.pairwise_lt_range' (i + 1) cs.length

lemma chunk_code_by_lines_ne_nil (s : String) (k : Nat) (hk : k ≠ 0) (hs : s ≠ "") :
    chunk_code_by_lines s k ≠ [] := by
  have hlines := pySplitlines_ne_nil s hs
  have hpos : 1 ≤ (pySplitlines s).length := List.length_pos.mpr hlines
  intro hcon
  have hlen := chunk_code_by_lines_length s k
  rw [hcon] at hlen
  simp only [List.length_nil] at hlen
  have : 1 ≤ ((pySplitlines s).length + k - 1) / k := by
    rw [Nat.le_div_iff_mul_le (Nat.pos_of_ne_zero hk)]
    omega
  omega

lemma chunk_code_by_ast_ne_nil (code : String) (parse : Option PyTree) (h : code ≠ "") :
    chunk_code_by_ast code parse ≠ [] := by
  cases parse with
  | none => exact chunk_code_by_lines_ne_nil code 200 (by omega) h
  | some tree =>
    simp only [chunk_code_by_ast]
    by_cases hc : astChunks code tree = []
    · simpa [hc] using chunk_code_by_lines_ne_nil code 200 (by omega) h
    · simp [hc]

lemma main_analysis_ok (code : String) (parse : Option PyTree) (client : AnalysisClient)
    (h : ∀ c ∈ chunk_code_by_ast code parse, hasContent c = true) :
    main_analysis_function (some code) parse client
      = ⟨true, some (expected_outcomes client 0 (chunk_code_by_ast code parse)), 0⟩ := by
  simp only [main_analysis_function]
  rw [gather_make_tasks_ok client (chunk_code_by_ast code parse) h 0]
  show RunResult.mk true
    (some (aggregate_results (expected_outcomes client 0 (chunk_code_by_ast code parse)))) 0 = _
  rw [aggregate_eq_self_of_pairwise_lt (expected_outcomes_pairwise_lt client _ 0)]

/-! ## Claim theorems: report completeness (C1) -/

/-- Refutation of C1 as stated: on the non-empty one-chunk source
`"x = 1"` (parsed as a single non-declaration statement) the report's
single outcome carries chunk number 1 — the chunk numbers are
`{1, …, chunkCount}`, not the claimed 0-based `{0, …, chunkCount-1}`.
Additionally, a non-empty whitespace-only source reaches no report at
all (its sole fallback chunk makes `analyze_chunk` raise before the
client call). -/
theorem C1_counterexample_indices_one_based :
    (main_analysis_function (some "x = 1") (some ⟨[PyNode.stmt]⟩)
        (fun _ _ => ClientResult.ok "fine")).report = some [⟨1, "fine"⟩]
    ∧ (chunk_code_by_ast "x = 1" (some ⟨[PyNode.stmt]⟩)).length = 1
    ∧ ([(⟨1, "fine"⟩ : Outcome)].map Outcome.chunk ≠ List.range 1)
    ∧ (main_analysis_function (some " ") (some ⟨[]⟩)
        (fun _ _ => ClientResult.ok "fine")).report = none := by
  refine ⟨by decide, by decide, by decide, by decide⟩

/-- C1 (amended): for every non-empty source whose produced chunks each
contain a non-whitespace character, the final report holds exactly
`chunkCount` outcomes and the chunk numbers occurring in it are exactly
`{1, …, chunkCount}` — dense, duplicate-free and in report order
(1-based rather than the claimed 0-based). -/
theorem C1_report_completeness (code : String) (parse : Option PyTree)
    (client : AnalysisClient) (hne : code ≠ "")
    (hws : ∀ c ∈ chunk_code_by_ast code parse, hasContent c = true) :
    ∃ outs, (main_analysis_function (some code) parse client).report = some outs
      ∧ outs.length = (chunk_code_by_ast code parse).length
      ∧ 1 ≤ (chunk_code_by_ast code parse).length
      ∧ outs.map Outcome.chunk = List.range' 1 (chunk_code_by_ast code parse).length := by
  refine ⟨expected_outcomes client 0 (chunk_code_by_ast code parse), ?_, ?_, ?_, ?_⟩
  · rw [main_analysis_ok code parse client hws]
  · exact expected_outcomes_length client _ 0
  · exact List.length_pos.mpr (chunk_code_by_ast_ne_nil code parse hne)
  · simpa using expected_outcomes_map_chunk client (chunk_code_by_ast code parse) 0

/-- Witness for C1 (amended): a two-declaration source produces a
report with outcomes numbered exactly 1 and 2. -/
theorem C1_report_completeness_witness :
    ("def g():\n    return 2" ≠ ""
    ∧ ∀ c ∈ chunk_code_by_ast "def g():\n    return 2"
        (some ⟨[PyNode.decl ⟨1, 2, 0, 12⟩]⟩), hasContent c = true)
    ∧ ∃ outs, (main_analysis_function (some "def g():\n    return 2")
        (some ⟨[PyNode.decl ⟨1, 2, 0, 12⟩]⟩) (fun _ _ => ClientResult.ok "ok")).report
          = some outs
      ∧ outs.length = (chunk_code_by_ast "def g():\n    return 2"
          (some ⟨[PyNode.decl ⟨1, 2, 0, 12⟩]⟩)).length
      ∧ 1 ≤ (chunk_code_by_ast "def g():\n    return 2"
          (some ⟨[PyNode.decl ⟨1, 2, 0, 12⟩]⟩)).length
      ∧ outs.map Outcome.chunk = List.range' 1 (chunk_code_by_ast "def g():\n    return 2"
          (some ⟨[PyNode.decl ⟨1, 2, 0, 12⟩]⟩)).length :=
  ⟨⟨by decide, by decide⟩,
    C1_report_completeness "def g():\n    return 2" (some ⟨[PyNode.decl ⟨1, 2, 0, 12⟩]⟩)
      (fun _ _ => ClientResult.ok "ok") (by decide) (by decide)⟩

/-! ## Claim theorems: aggregation order invariance (C8) -/

/-- C8: aggregation applied to any permutation of the same outcomes
(chunk indices pairwise distinct, as produced by the dispatcher)
yields an identical sequence, sorted ascending by chunk index —
the report does not depend on task completion order. -/
theorem C8_aggregation_order_invariant (l₁ l₂ : List Outcome)
    (hperm : l₁.Perm l₂) (hnodup : (l₁.map Outcome.chunk).Nodup) :
    aggregate_results l₁ = aggregate_results l₂
    ∧ List.Pairwise outcome_key_le (aggregate_results l₁) := by
  have hn₁ : ((aggregate_results l₁).map Outcome.chunk).Nodup :=
    (((aggregate_perm l₁).map Outcome.chunk).nodup_iff).mpr hnodup
  have hn₂ : ((aggregate_results l₂).map Outcome.chunk).Nodup :=
    (((aggregate_perm l₂).map Outcome.chunk).nodup_iff).mpr
      ((hperm.map Outcome.chunk).nodup_iff.mp hnodup)
  refine ⟨?_, aggregate_sorted l₁⟩
  apply eq_of_perm_of_pairwise_lt
  · exact (aggregate_perm l₁).trans (hperm.trans (aggregate_perm l₂).symm)
  · exact pairwise_lt_of_le_nodup (aggregate_sorted l₁) hn₁
  · exact pairwise_lt_of_le_nodup (aggregate_sorted l₂) hn₂

/-- Witness for C8: two opposite arrival orders of the same two
outcomes aggregate to the same sorted report. -/
theorem C8_aggregation_order_invariant_witness :
    (([⟨2, "b"⟩, ⟨1, "a"⟩] : List Outcome).Perm [⟨1, "a"⟩, ⟨2, "b"⟩]
    ∧ (([⟨2, "b"⟩, ⟨1, "a"⟩] : List Outcome).map Outcome.chunk).Nodup)
    ∧ aggregate_results [⟨2, "b"⟩, ⟨1, "a"⟩] = aggregate_results [⟨1, "a"⟩, ⟨2, "b"⟩]
    ∧ List.Pairwise outcome_key_le (aggregate_results [⟨2, "b"⟩, ⟨1, "a"⟩]) :=
  ⟨⟨by decide, by decide⟩,
    C8_aggregation_order_invariant [⟨2, "b"⟩, ⟨1, "a"⟩] [⟨1, "a"⟩, ⟨2, "b"⟩]
      (by decide) (by decide)⟩

/-! ## Claim theorems: CLI behavior (C9) -/

/-- Refutation of C9 as stated: when the file cannot be read,
`main_analysis_function` prints an error and returns normally, so the
process exits with status 0 — not a non-zero exit (chunking is indeed
never reached). -/
theorem C9_counterexample_exit_zero :
    (main_analysis_function none (some ⟨[]⟩)
        (fun _ _ => ClientResult.ok "fine")).exitCode = 0
    ∧ (main_analysis_function none (some ⟨[]⟩)
        (fun _ _ => ClientResult.ok "fine")).chunkingStarted = false :=
  ⟨rfl, rfl⟩

/-- C9 (amended): for an unreadable file the run terminates before any
chunking begins after printing an error, but with exit status 0 rather
than the claimed non-zero status; for every readable file whose chunks
each contain a non-whitespace character, the program prints one labeled
section per chunk, in ascending chunk-number order, containing that
chunk's outcome text (analysis or failure diagnostic). -/
theorem C9_cli_exit_and_report (parse : Option PyTree) (client : AnalysisClient)
    (code : String)
    (hws : ∀ c ∈ chunk_code_by_ast code parse, hasContent c = true) :
    ((main_analysis_function none parse client).chunkingStarted = false
      ∧ (main_analysis_function none parse client).report = none
      ∧ (main_analysis_function none parse client).exitCode = 0)
    ∧ (∃ outs, (main_analysis_function (some code) parse client).report = some outs
        ∧ outs.length = (chunk_code_by_ast code parse).length
        ∧ outs.map Outcome.chunk = List.range' 1 (chunk_code_by_ast code parse).length
        ∧ (main_analysis_function (some code) parse client).exitCode = 0) := by
  refine ⟨⟨rfl, rfl, rfl⟩,
    ⟨expected_outcomes client 0 (chunk_code_by_ast code parse), ?_, ?_, ?_, ?_⟩⟩
  · rw [main_analysis_ok code parse client hws]
  · exact expected_outcomes_length client _ 0
  · simpa using expected_outcomes_map_chunk client (chunk_code_by_ast code parse) 0
  · rw [main_analysis_ok code parse client hws]

/-- Witness for C9 (amended): a one-function file is reported as one
labeled section with chunk number 1; a missing file exits 0 without
chunking. -/
theorem C9_cli_exit_and_report_witness :
    (∀ c ∈ chunk_code_by_ast "def f():\n    pass"
        (some ⟨[PyNode.decl ⟨1, 2, 0, 8⟩]⟩), hasContent c = true)
    ∧ (((main_analysis_function none (some ⟨[PyNode.decl ⟨1, 2, 0, 8⟩]⟩)
          (fun _ _ => ClientResult.ok "ok")).chunkingStarted = false
      ∧ (main_analysis_function none (some ⟨[PyNode.decl ⟨1, 2, 0, 8⟩]⟩)
          (fun _ _ => ClientResult.ok "ok")).report = none
      ∧ (main_analysis_function none (some ⟨[PyNode.decl ⟨1, 2, 0, 8⟩]⟩)
          (fun _ _ => ClientResult.ok "ok")).exitCode = 0)
    ∧ (∃ outs, (main_analysis_function (some "def f():\n    pass")
          (some ⟨[PyNode.decl ⟨1, 2, 0, 8⟩]⟩) (fun _ _ => ClientResult.ok "ok")).report
            = some outs
        ∧ outs.length = (chunk_code_by_ast "def f():\n    pass"
            (some ⟨[PyNode.decl ⟨1, 2, 0, 8⟩]⟩)).length
        ∧ outs.map Outcome.chunk = List.range' 1 (chunk_code_by_ast "def f():\n    pass"
            (some ⟨[PyNode.decl ⟨1, 2, 0, 8⟩]⟩)).length
        ∧ (main_analysis_function (some "def f():\n    pass")
            (some ⟨[PyNode.decl ⟨1, 2, 0, 8⟩]⟩)
            (fun _ _ => ClientResult.ok "ok")).exitCode = 0)) :=
  ⟨by decide,
    C9_cli_exit_and_report (some ⟨[PyNode.decl ⟨1, 2, 0, 8⟩]⟩)
      (fun _ _ => ClientResult.ok "ok") "def f():\n    pass" (by decide)⟩

/-! ## Claim theorems: failure isolation (C2) -/

lemma pyStartsWith_append (p e : String) : pyStartsWith (p ++ e) p = true := by
  simp only [pyStartsWith, String.data_append]
  rw [List.isPrefixOf_iff_prefix]
  exact List.prefix_append p.data e.data

lemma isFailureText_openAI (e : String) :
    isFailureText ("Error: Could not analyze chunk. " ++ e) = true := by
  simp [isFailureText, pyStartsWith_append]

lemma isFailureText_other (e : String) :
    isFailureText ("Error: An unexpected error occurred. " ++ e) = true := by
  simp [isFailureText, pyStartsWith_append]

lemma expected_outcomes_filter_failure_count (client : AnalysisClient) (j : Nat)
    (hfail : ∀ c, (∃ e, client j c = .openAIError e) ∨ (∃ e, client j c = .otherError e))
    (hok : ∀ i c, i ≠ j → ∃ t, client i c = .ok t)
    (hclean : ∀ i c t, client i c = .ok t → isFailureText t = false) :
    ∀ (cs : List String) (s : Nat),
      ((expected_outcomes client s cs).filter (fun o => isFailureText o.analysis)).length
        = if s < j ∧ j ≤ s + cs.length then 1 else 0 := by
  intro cs
  induction cs with
  | nil =>
    intro s
    simp only [expected_outcomes, List.filter_nil, List.length_nil, Nat.add_zero]
    have hno : ¬(s < j ∧ j ≤ s) := by omega
    simp [hno]
  | cons c cs ih =>
    intro s
    by_cases hsj : s + 1 = j
    · have hhead : isFailureText (expected_outcome client c (s + 1)).analysis = true := by
        rcases hfail c with ⟨e, he⟩ | ⟨e, he⟩ <;>
          simp [expected_outcome, hsj, he, isFailureText_openAI, isFailureText_other]
      have htail0 : ((expected_outcomes client (s + 1) cs).filter
          (fun o => isFailureText o.analysis)).length = 0 := by
        rw [ih (s + 1)]
        have hno : ¬(s + 1 < j ∧ j ≤ s + 1 + cs.length) := by omega
        simp [hno]
      have hcpos : s < j ∧ j ≤ s + (c :: cs).length := by
        simp only [List.length_cons]
        omega
      rw [if_pos hcpos]
      simp [expected_outcomes, List.filter_cons, hhead, htail0]
    · obtain ⟨t, ht⟩ := hok (s + 1) c hsj
      have hhead : isFailureText (expected_outcome client c (s + 1)).analysis = false := by
        have : (expected_outcome client c (s + 1)).analysis = t := by
          simp [expected_outcome, ht]
        rw [this]
        exact hclean (s + 1) c t ht
      have hcond : (s < j ∧ j ≤ s + (c :: cs).length)
          ↔ (s + 1 < j ∧ j ≤ s + 1 + cs.length) := by
        simp only [List.length_cons]
        omega
      have hskip : (expected_outcomes client s (c :: cs)).filter
            (fun o => isFailureText o.analysis)
          = (expected_outcomes client (s + 1) cs).filter
            (fun o => isFailureText o.analysis) := by
        simp [expected_outcomes, List.filter_cons, hhead]
      rw [hskip, ih (s + 1)]
      by_cases hc2 : s + 1 < j ∧ j ≤ s + 1 + cs.length
      · rw [if_pos hc2, if_pos (hcond.mpr hc2)]
      · rw [if_neg hc2, if_neg (fun h => hc2 (hcond.mp h))]

/-- Refutation of C2 as stated (quantified over *every* list of N
chunks): with chunks `[" ", "x"]` and a client that fails exactly for
chunk 2 and succeeds for every other chunk, the dispatch does not
return 2 outcomes — the whitespace-only first chunk makes
`analyze_chunk` raise `IndexError` before its `try` block, the
exception propagates through `asyncio.gather`, and no outcome list is
produced at all. -/
theorem C2_counterexample_whitespace_chunk :
    gather (make_tasks
      (fun n _ => if n = 2 then ClientResult.openAIError "boom" else ClientResult.ok "good")
      0 [" ", "x"]) = .error .indexError
    ∧ (gather (make_tasks
      (fun n _ => if n = 2 then ClientResult.openAIError "boom" else ClientResult.ok "good")
      0 [" ", "x"])).isOk = false := ⟨rfl, rfl⟩

/-- C2 (amended): for every list of N chunks (1 < N) *each containing a
non-whitespace character*, and every client that fails (raises) for
exactly the chunk dispatched as number `j` and succeeds for all
others (with success texts not shaped like the failure diagnostics),
the dispatcher waits for all tasks and returns exactly N outcomes in
dispatch numbering 1..N: each non-`j` outcome carries its own chunk
number and the client's success text, the `j`-th outcome carries the
same chunk number `j` it was dispatched with and one of the two
diagnostic texts, and exactly one outcome is marked failed — no
sibling invocation is affected and there is no early exit. -/
theorem C2_failure_isolation (chunks : List String) (client : AnalysisClient) (j : Nat)
    (_hN : 1 < chunks.length)
    (hws : ∀ c ∈ chunks, hasContent c = true)
    (hj : 1 ≤ j ∧ j ≤ chunks.length)
    (hfail : ∀ c, (∃ e, client j c = .openAIError e) ∨ (∃ e, client j c = .otherError e))
    (hok : ∀ i c, i ≠ j → ∃ t, client i c = .ok t)
    (hclean : ∀ i c t, client i c = .ok t → isFailureText t = false) :
    ∃ results, gather (make_tasks client 0 chunks) = .ok results
      ∧ results.length = chunks.length
      ∧ results.map Outcome.chunk = List.range' 1 chunks.length
      ∧ (∀ i c, chunks[i]? = some c → i + 1 ≠ j →
          ∃ t, client (i + 1) c = .ok t ∧ results[i]? = some ⟨i + 1, t⟩)
      ∧ (∀ i c, chunks[i]? = some c → i + 1 = j →
          (∃ e, results[i]? = some ⟨j, "Error: Could not analyze chunk. " ++ e⟩)
          ∨ (∃ e, results[i]? = some ⟨j, "Error: An unexpected error occurred. " ++ e⟩))
      ∧ (results.filter (fun o => isFailureText o.analysis)).length = 1 := by
  refine ⟨expected_outcomes client 0 chunks,
    gather_make_tasks_ok client chunks hws 0,
    expected_outcomes_length client chunks 0,
    by simpa using expected_outcomes_map_chunk client chunks 0, ?_, ?_, ?_⟩
  · intro i c hc hij
    obtain ⟨t, ht⟩ := hok (i + 1) c hij
    refine ⟨t, ht, ?_⟩
    rw [expected_outcomes_getElem? client chunks 0 i, hc]
    simp [expected_outcome, show 0 + i + 1 = i + 1 from by omega, ht]
  · intro i c hc hij
    rw [expected_outcomes_getElem? client chunks 0 i, hc]
    rcases hfail c with ⟨e, he⟩ | ⟨e, he⟩
    · exact Or.inl ⟨e, by simp [expected_outcome,
        show 0 + i + 1 = i + 1 from by omega, hij, he]⟩
    · exact Or.inr ⟨e, by simp [expected_outcome,
        show 0 + i + 1 = i + 1 from by omega, hij, he]⟩
  · rw [expected_outcomes_filter_failure_count client j hfail hok hclean chunks 0]
    rw [if_pos (show 0 < j ∧ j ≤ 0 + chunks.length by omega)]

/-- Witness for C2 (amended): three chunks with the client failing for
chunk 2 only — three outcomes, numbered 1..3, exactly one failed. -/
theorem C2_failure_isolation_witness :
    (1 < ([ "a = 1", "b = 2", "c = 3" ] : List String).length
    ∧ (∀ c ∈ ([ "a = 1", "b = 2", "c = 3" ] : List String), hasContent c = true)
    ∧ (1 ≤ 2 ∧ 2 ≤ ([ "a = 1", "b = 2", "c = 3" ] : List String).length)
    ∧ (∀ c, (∃ e, (fun n (_ : String) => if n = 2 then ClientResult.openAIError "rate limit"
          else ClientResult.ok "No issues found in this chunk.") 2 c
            = ClientResult.openAIError e)
        ∨ (∃ e, (fun n (_ : String) => if n = 2 then ClientResult.openAIError "rate limit"
          else ClientResult.ok "No issues found in this chunk.") 2 c
            = ClientResult.otherError e))
    ∧ (∀ i c, i ≠ 2 → ∃ t, (fun n (_ : String) => if n = 2 then ClientResult.openAIError "rate limit"
          else ClientResult.ok "No issues found in this chunk.") i c = ClientResult.ok t)
    ∧ (∀ i c t, (fun n (_ : String) => if n = 2 then ClientResult.openAIError "rate limit"
          else ClientResult.ok "No issues found in this chunk.") i c = ClientResult.ok t →
        isFailureText t = false))
    ∧ (∃ results, gather (make_tasks (fun n (_ : String) =>
          if n = 2 then ClientResult.openAIError "rate limit"
          else ClientResult.ok "No issues found in this chunk.") 0
          [ "a = 1", "b = 2", "c = 3" ]) = .ok results
      ∧ results.length = ([ "a = 1", "b = 2", "c = 3" ] : List String).length
      ∧ results.map Outcome.chunk = List.range' 1 ([ "a = 1", "b = 2", "c = 3" ] : List String).length
      ∧ (∀ i c, ([ "a = 1", "b = 2", "c = 3" ] : List String)[i]? = some c → i + 1 ≠ 2 →
          ∃ t, (fun n (_ : String) => if n = 2 then ClientResult.openAIError "rate limit"
            else ClientResult.ok "No issues found in this chunk.") (i + 1) c = ClientResult.ok t
            ∧ results[i]? = some ⟨i + 1, t⟩)
      ∧ (∀ i c, ([ "a = 1", "b = 2", "c = 3" ] : List String)[i]? = some c → i + 1 = 2 →
          (∃ e, results[i]? = some ⟨2, "Error: Could not analyze chunk. " ++ e⟩)
          ∨ (∃ e, results[i]? = some ⟨2, "Error: An unexpected error occurred. " ++ e⟩))
      ∧ (results.filter (fun o => isFailureText o.analysis)).length = 1) := by
  have hfail : ∀ c : String, (∃ e, (fun n (_ : String) =>
      if n = 2 then ClientResult.openAIError "rate limit"
      else ClientResult.ok "No issues found in this chunk.") 2 c = ClientResult.openAIError e)
      ∨ (∃ e, (fun n (_ : String) => if n = 2 then ClientResult.openAIError "rate limit"
      else ClientResult.ok "No issues found in this chunk.") 2 c = ClientResult.otherError e) :=
    fun _ => Or.inl ⟨"rate limit", rfl⟩
  have hok : ∀ i (c : String), i ≠ 2 → ∃ t, (fun n (_ : String) =>
      if n = 2 then ClientResult.openAIError "rate limit"
      else ClientResult.ok "No issues found in this chunk.") i c = ClientResult.ok t :=
    fun i _ hi => ⟨"No issues found in this chunk.", by simp [hi]⟩
  have hclean : ∀ i (c t : String), (fun n (_ : String) =>
      if n = 2 then ClientResult.openAIError "rate limit"
      else ClientResult.ok "No issues found in this chunk.") i c = ClientResult.ok t →
      isFailureText t = false := by
    intro i c t ht
    by_cases hi : i = 2
    · rw [hi] at ht
      simp at ht
    · simp only [if_neg hi, ClientResult.ok.injEq] at ht
      rw [← ht]
      decide
  exact ⟨⟨by decide, by decide, by decide, hfail, hok, hclean⟩,
    C2_failure_isolation [ "a = 1", "b = 2", "c = 3" ]
      (fun n (_ : String) => if n = 2 then ClientResult.openAIError "rate limit"
        else ClientResult.ok "No issues found in this chunk.") 2
      (by decide) (by decide) (by decide) hfail hok hclean⟩

/-! ## Claim theorems: leftover top-level code (C3) -/

/-- C3, evaluated at the failing input
`"import os\nX = 1\ndef f():\n    pass"` (whose `ast.parse` body is
`[Import, Assign, FunctionDef(lines 3-4)]`): the gap before the
declaration mixes an import line with the assignment `X = 1`, the
`if import_lines:` branch keeps only the import lines, and the
assignment appears in no emitted chunk — the single chunk is
`"import os\ndef f():\n    pass"`, so concatenating all chunks does
not reconstruct the file's semantic content.  The code's own comment
(*"If it's just imports"*) and the spec's leftover-code rule show the
intended condition was "all gap lines are imports", not "some". -/
theorem C3_mixed_gap_drops_assignment :
    chunk_code_by_ast "import os\nX = 1\ndef f():\n    pass"
        (some ⟨[PyNode.stmt, PyNode.stmt, PyNode.decl ⟨3, 4, 0, 8⟩]⟩)
      = ["import os\ndef f():\n    pass"] := by decide

/-! ## Claim theorems: structural boundary preservation (C6) -/

lemma processNode_decl_step (code : String) (acc : List String) (e : Nat) (d : DeclNode)
    (hgap : d.lineno - 1 ≤ e
      ∨ pyStrip (pyJoin (((pySplitlines code).drop e).take (d.lineno - 1 - e))) = "")
    (hseg : get_source_segment code d ≠ "") :
    processNode code ⟨acc, [], e⟩ (PyNode.decl d)
      = ⟨acc ++ [get_source_segment code d], [], d.end_lineno⟩ := by
  simp only [processNode]
  by_cases hgt : d.lineno - 1 > e
  · have hstrip : pyStrip (pyJoin (((pySplitlines code).drop e).take (d.lineno - 1 - e))) = "" := by
      rcases hgap with h1 | h2
      · omega
      · exact h2
    simp [hgt, hstrip, hseg]
  · simp [hgt, hseg]

lemma foldl_decls (code : String) (decls : List DeclNode) :
    ∀ (acc : List String) (e : Nat), declGapsBlank code e decls = true →
      (decls.map PyNode.decl).foldl (processNode code) ⟨acc, [], e⟩
        = ⟨acc ++ decls.map (get_source_segment code), [], finalEnd e decls⟩ := by
  induction decls with
  | nil =>
    intro acc e _
    simp [finalEnd]
  | cons d rest ih =>
    intro acc e h
    simp only [declGapsBlank, Bool.and_eq_true, Bool.or_eq_true, decide_eq_true_eq] at h
    obtain ⟨⟨hgap, hseg⟩, hrest⟩ := h
    simp only [List.map_cons, List.foldl_cons,
      processNode_decl_step code acc e d hgap hseg]
    rw [ih (acc ++ [get_source_segment code d]) d.end_lineno hrest]
    simp [finalEnd, List.append_assoc]

lemma astChunks_decls (code : String) (decls : List DeclNode)
    (hgaps : declGapsBlank code 0 decls = true)
    (htrail : pyStrip (pyJoin ((pySplitlines code).drop (finalEnd 0 decls))) = "") :
    astChunks code ⟨decls.map PyNode.decl⟩ = decls.map (get_source_segment code) := by
  simp only [astChunks]
  rw [foldl_decls code decls [] 0 hgaps]
  simp [htrail]

/-- Refutation of C6 as stated: the source
`"def f():\n    pass\n# note\ndef g():\n    pass"` contains exactly 2
top-level declarations and no other top-level statements (its parsed
body is two `FunctionDef` nodes; the comment is not a statement), yet
the structural chunker emits 3 chunks — the comment-only gap strips to
non-empty text and is flushed as its own chunk. -/
theorem C6_counterexample_comment_chunk :
    chunk_code_by_ast "def f():\n    pass\n# note\ndef g():\n    pass"
        (some ⟨[PyNode.decl ⟨1, 2, 0, 8⟩, PyNode.decl ⟨4, 5, 0, 8⟩]⟩)
      = ["def f():\n    pass", "# note", "def g():\n    pass"]
    ∧ (["def f():\n    pass", "# note", "def g():\n    pass"] : List String).length ≠ 2 :=
  ⟨by decide, by decide⟩

/-- C6 (amended): for every valid source whose parsed top-level body
consists of `N ≥ 1` function/class declarations and nothing else, and
in which every source line outside the declarations' spans is
whitespace-only (in particular there are no comment-only lines between
declarations), the structural chunker yields exactly `N` chunks, the
`i`-th being exactly the `i`-th declaration's full source segment, in
source order. -/
theorem C6_structural_boundaries (code : String) (decls : List DeclNode)
    (hne : decls ≠ [])
    (hgaps : declGapsBlank code 0 decls = true)
    (htrail : pyStrip (pyJoin ((pySplitlines code).drop (finalEnd 0 decls))) = "") :
    chunk_code_by_ast code (some ⟨decls.map PyNode.decl⟩)
      = decls.map (get_source_segment code)
    ∧ (chunk_code_by_ast code (some ⟨decls.map PyNode.decl⟩)).length = decls.length := by
  have h := astChunks_decls code decls hgaps htrail
  have hnempty : astChunks code ⟨decls.map PyNode.decl⟩ ≠ [] := by
    rw [h]
    simp [hne]
  have hmain : chunk_code_by_ast code (some ⟨decls.map PyNode.decl⟩)
      = decls.map (get_source_segment code) := by
    simp only [chunk_code_by_ast, if_neg hnempty]
    exact h
  exact ⟨hmain, by rw [hmain]; simp⟩

/-- Witness for C6 (amended): two back-to-back function declarations
chunk into exactly their two source segments. -/
theorem C6_structural_boundaries_witness :
    (([⟨1, 2, 0, 8⟩, ⟨3, 4, 0, 8⟩] : List DeclNode) ≠ []
    ∧ declGapsBlank "def f():\n    pass\ndef g():\n    pass" 0
        [⟨1, 2, 0, 8⟩, ⟨3, 4, 0, 8⟩] = true
    ∧ pyStrip (pyJoin ((pySplitlines "def f():\n    pass\ndef g():\n    pass").drop
        (finalEnd 0 [⟨1, 2, 0, 8⟩, ⟨3, 4, 0, 8⟩]))) = "")
    ∧ chunk_code_by_ast "def f():\n    pass\ndef g():\n    pass"
        (some ⟨([⟨1, 2, 0, 8⟩, ⟨3, 4, 0, 8⟩] : List DeclNode).map PyNode.decl⟩)
      = ([⟨1, 2, 0, 8⟩, ⟨3, 4, 0, 8⟩] : List DeclNode).map
          (get_source_segment "def f():\n    pass\ndef g():\n    pass")
    ∧ (chunk_code_by_ast "def f():\n    pass\ndef g():\n    pass"
        (some ⟨([⟨1, 2, 0, 8⟩, ⟨3, 4, 0, 8⟩] : List DeclNode).map PyNode.decl⟩)).length
      = ([⟨1, 2, 0, 8⟩, ⟨3, 4, 0, 8⟩] : List DeclNode).length := by
  refine ⟨⟨by decide, by decide, by decide⟩, ?_⟩
  exact C6_structural_boundaries "def f():\n    pass\ndef g():\n    pass"
    [⟨1, 2, 0, 8⟩, ⟨3, 4, 0, 8⟩] (by decide) (by decide) (by decide)

/-! ## Round-trip lemmas: splitlines of a join (for C7) -/

lemma string_ext {a b : String} (h : a.data = b.data) : a = b := by
  cases a
  cases b
  exact congrArg String.mk h

lemma splitCore_append_newline :
    ∀ (cs : List Char), '\n' ∉ cs → ∀ (rest acc : List Char),
      splitCore (cs ++ '\n' :: rest) acc = (acc.reverse ++ cs) :: splitCore rest [] := by
  intro cs
  induction cs with
  | nil =>
    intro _ rest acc
    simp [splitCore]
  | cons c cs ih =>
    intro h rest acc
    have hc : ¬(c = '\n') := fun hc => h (by simp [hc])
    have h' : '\n' ∉ cs := fun hm => h (List.mem_cons_of_mem _ hm)
    simp only [List.cons_append, splitCore, if_neg hc, List.append_eq]
    rw [ih h' rest (c :: acc)]
    simp

lemma splitCore_no_newline :
    ∀ (cs : List Char), '\n' ∉ cs → ∀ acc : List Char, acc ≠ [] ∨ cs ≠ [] →
      splitCore cs acc = [acc.reverse ++ cs] := by
  intro cs
  induction cs with
  | nil =>
    intro _ acc hne
    have hacc : acc ≠ [] := hne.resolve_right (fun hn => hn rfl)
    simp [splitCore, List.isEmpty_iff, hacc]
  | cons c cs ih =>
    intro h acc _
    have hc : ¬(c = '\n') := fun hc => h (by simp [hc])
    have h' : '\n' ∉ cs := fun hm => h (List.mem_cons_of_mem _ hm)
    simp only [splitCore, if_neg hc]
    rw [ih h' (c :: acc) (Or.inl (by simp))]
    simp

lemma pyJoin_cons_cons (a b : String) (rest : List String) :
    pyJoin (a :: b :: rest) = a ++ "\n" ++ pyJoin (b :: rest) := rfl

lemma pySplitlines_pyJoin (L : List String) (hL : L ≠ [])
    (hnl : ∀ l ∈ L, '\n' ∉ l.data) (hlast : L.getLast hL ≠ "") :
    pySplitlines (pyJoin L) = L := by
  induction L with
  | nil => exact absurd rfl hL
  | cons l L' ih =>
    cases L' with
    | nil =>
      have hl : l ≠ "" := by simpa using hlast
      have hld : l.data ≠ [] := fun hn => hl ((data_eq_nil_iff l).mp hn)
      simp only [pyJoin, pySplitlines]
      rw [splitCore_no_newline l.data (hnl l (by simp)) [] (Or.inr hld)]
      simp
    | cons m L'' =>
      have hdata : (pyJoin (l :: m :: L'')).data
          = l.data ++ '\n' :: (pyJoin (m :: L'')).data := by
        rw [pyJoin_cons_cons]
        simp [String.data_append]
      have hlast' : (m :: L'').getLast (by simp) ≠ "" := by
        rw [← List.getLast_cons (by simp : m :: L'' ≠ [])]
        exact hlast
      have ih' := ih (by simp) (fun x hx => hnl x (List.mem_cons_of_mem _ hx)) hlast'
      simp only [pySplitlines] at ih' ⊢
      rw [hdata, splitCore_append_newline l.data (hnl l (by simp)) _ []]
      simp only [List.reverse_nil, List.nil_append, List.map_cons, ih']

/-! ## Segment lemmas (for C6/C7 instantiations) -/

lemma getD_append_length (A : List String) (z : String) (B : List String) :
    (A ++ z :: B).getD A.length "" = z := by
  rw [List.getD_eq_getElem?_getD, List.getElem?_append_right (Nat.le_refl A.length)]
  simp

lemma string_take_length (z : String) : String.mk (z.data.take z.length) = z := by
  apply string_ext
  show (z.data.take z.data.length) = z.data
  exact List.take_length z.data

/-- `ast.get_source_segment` of a declaration occupying exactly the
line block `f` (preceded by lines `A`, followed by lines `B`), with
column offsets 0 and the length of `f`'s last line, is the join of
`f`. -/
lemma get_source_segment_block (code : String) (A f B : List String) (hf : f ≠ [])
    (hL : pySplitlines code = A ++ (f ++ B)) :
    get_source_segment code
        ⟨A.length + 1, A.length + f.length, 0, (f.getLast hf).length⟩
      = pyJoin f := by
  rcases List.eq_nil_or_concat f with rfl | ⟨F, z, hfz⟩
  · exact absurd rfl hf
  · rw [List.concat_eq_append] at hfz
    subst hfz
    have hzlast : (F ++ [z]).getLast hf = z := List.getLast_concat _
    cases F with
    | nil =>
      simp only [List.nil_append] at hzlast hL ⊢
      simp only [get_source_segment, hL, hzlast]
      rw [if_pos (by simp)]
      simp only [Nat.add_sub_cancel, List.singleton_append]
      rw [getD_append_length A z B]
      simp only [Nat.sub_zero, List.drop_zero]
      rw [string_take_length]
      rfl
    | cons w F' =>
      have hlen : (w :: F' ++ [z]).length = F'.length + 2 := by simp
      have hne : ¬(A.length + 1 = A.length + (w :: F' ++ [z]).length) := by
        simp only [hlen]
        omega
      simp only [get_source_segment, hL, hzlast, if_neg hne]
      have hfirst : (A ++ (w :: F' ++ [z] ++ B)).getD (A.length + 1 - 1) "" = w := by
        simp only [Nat.add_sub_cancel]
        have : w :: F' ++ [z] ++ B = w :: (F' ++ [z] ++ B) := by simp
        rw [show (A ++ (w :: F' ++ [z] ++ B)) = A ++ w :: (F' ++ [z] ++ B) from by simp,
          getD_append_length A w (F' ++ [z] ++ B)]
      have hdropA : (A ++ (w :: F' ++ [z] ++ B)).drop (A.length + 1)
          = F' ++ [z] ++ B := by
        rw [show (A ++ (w :: F' ++ [z] ++ B)) = (A ++ [w]) ++ (F' ++ [z] ++ B) from by simp,
          show A.length + 1 = (A ++ [w]).length from by simp]
        exact List.drop_left (A ++ [w]) (F' ++ [z] ++ B)
      have hmid : A.length + (w :: F' ++ [z]).length - 1 - (A.length + 1) = F'.length := by
        simp only [hlen]
        omega
      have hlastline : (A ++ (w :: F' ++ [z] ++ B)).getD
          (A.length + (w :: F' ++ [z]).length - 1) "" = z := by
        have e1 : A ++ (w :: F' ++ [z] ++ B) = (A ++ (w :: F')) ++ z :: B := by simp
        have e2 : A.length + (w :: F' ++ [z]).length - 1 = (A ++ (w :: F')).length := by
          simp only [hlen, List.length_append, List.length_cons]
          omega
        rw [e1, e2, getD_append_length (A ++ (w :: F')) z B]
      rw [hfirst, hdropA, hmid, hlastline]
      have htake : (F' ++ [z] ++ B).take F'.length = F' := by
        rw [show F' ++ [z] ++ B = F' ++ ([z] ++ B) from by simp]
        exact List.take_left F' ([z] ++ B)
      rw [htake, string_take_length, List.drop_zero]
      have : String.mk w.data = w := string_ext rfl
      rw [this]
      show pyJoin (w :: (F' ++ [z])) = pyJoin (w :: F' ++ [z])
      simp

/-! ## Claim theorems: import hoisting (C7) -/

lemma string_empty_append (s : String) : "" ++ s = s := by
  apply string_ext
  simp [String.data_append]

lemma isImportLine_ne_empty (l : String) (h : isImportLine l = true) : l ≠ "" := by
  intro he
  rw [he] at h
  exact absurd h (by decide)

lemma pyJoin_ne_empty (L : List String) (hL : L ≠ []) (hlast : L.getLast hL ≠ "") :
    pyJoin L ≠ "" := by
  cases L with
  | nil => exact absurd rfl hL
  | cons w L' =>
    cases L' with
    | nil => simpa [pyJoin] using hlast
    | cons m L'' =>
      intro hcon
      have hd : (pyJoin (w :: m :: L'')).data = [] := by rw [hcon]
      rw [pyJoin_cons_cons] at hd
      simp [String.data_append] at hd

/-- One loop iteration on a declaration preceded by a gap consisting
exactly of the pending-import block `I`: the import lines are buffered,
then immediately prefixed (joined plus newline) onto the declaration's
segment, and the buffer is cleared. -/
lemma processNode_decl_imports (code : String) (acc : List String) (e : Nat) (d : DeclNode)
    (I : List String) (hIne : I ≠ [])
    (hgt : d.lineno - 1 > e)
    (hgap : ((pySplitlines code).drop e).take (d.lineno - 1 - e) = I)
    (hstrip : pyStrip (pyJoin I) = pyJoin I)
    (hne : pyJoin I ≠ "")
    (hsplit : pySplitlines (pyJoin I) = I)
    (hfilter : I.filter isImportLine = I)
    (hseg : get_source_segment code d ≠ "") :
    processNode code ⟨acc, [], e⟩ (PyNode.decl d)
      = ⟨acc ++ [pyJoin I ++ "\n" ++ get_source_segment code d], [], d.end_lineno⟩ := by
  simp only [processNode, hgap, hstrip, hsplit, hfilter]
  simp [hgt, hne, hIne, hseg]

/-- C7: for every valid source made of an import block `I` (possibly
empty; every line import-style, the block strip-stable), then a
declaration spanning the line block `f`, then a declaration spanning
the line block `g` (source lines contain no embedded newlines and each
declaration's last line is non-empty), the structural chunker emits the
first declaration's chunk prefixed with the import lines verbatim, in
original order, joined by newlines plus a trailing newline — with no
prefix at all when there are no imports — and the second declaration's
chunk carries no prefix: the pending-import buffer is cleared once
used. -/
theorem C7_import_hoisting (I f g : List String)
    (hf : f ≠ []) (hg : g ≠ [])
    (hnl : ∀ l ∈ I ++ f ++ g, '\n' ∉ l.data)
    (hIimp : ∀ l ∈ I, isImportLine l = true)
    (hIstrip : pyStrip (pyJoin I) = pyJoin I)
    (hflast : f.getLast hf ≠ "")
    (hglast : g.getLast hg ≠ "") :
    chunk_code_by_ast (pyJoin (I ++ f ++ g))
        (some ⟨[PyNode.decl ⟨I.length + 1, I.length + f.length, 0, (f.getLast hf).length⟩,
                PyNode.decl ⟨I.length + f.length + 1, I.length + f.length + g.length, 0,
                  (g.getLast hg).length⟩]⟩)
      = [(if I = [] then "" else pyJoin I ++ "\n") ++ pyJoin f, pyJoin g] := by
  have hLne : I ++ f ++ g ≠ [] := by
    simp [hg]
  have hlastIFG : (I ++ f ++ g).getLast hLne = g.getLast hg := by
    rw [List.getLast_append_of_ne_nil hg]
  have hsplitAll : pySplitlines (pyJoin (I ++ f ++ g)) = I ++ f ++ g :=
    pySplitlines_pyJoin (I ++ f ++ g) hLne hnl (by rw [hlastIFG]; exact hglast)
  have hseg1 : get_source_segment (pyJoin (I ++ f ++ g))
      ⟨I.length + 1, I.length + f.length, 0, (f.getLast hf).length⟩ = pyJoin f := by
    have := get_source_segment_block (pyJoin (I ++ f ++ g)) I f g hf
      (by rw [hsplitAll, List.append_assoc])
    exact this
  have hseg2 : get_source_segment (pyJoin (I ++ f ++ g))
      ⟨I.length + f.length + 1, I.length + f.length + g.length, 0,
        (g.getLast hg).length⟩ = pyJoin g := by
    have := get_source_segment_block (pyJoin (I ++ f ++ g)) (I ++ f) g [] hg
      (by rw [hsplitAll]; simp)
    simpa [List.length_append] using this
  have hfne : pyJoin f ≠ "" := pyJoin_ne_empty f hf hflast
  have hgne : pyJoin g ≠ "" := pyJoin_ne_empty g hg hglast
  have hdropall : (pySplitlines (pyJoin (I ++ f ++ g))).drop
      (I.length + f.length + g.length) = [] := by
    rw [hsplitAll]
    apply List.drop_eq_nil_of_le
    simp only [List.length_append]
    omega
  have hstep2 : ∀ acc : List String,
      processNode (pyJoin (I ++ f ++ g)) ⟨acc, [], I.length + f.length⟩
        (PyNode.decl ⟨I.length + f.length + 1, I.length + f.length + g.length, 0,
          (g.getLast hg).length⟩)
      = ⟨acc ++ [pyJoin g], [], I.length + f.length + g.length⟩ := by
    intro acc
    have := processNode_decl_step (pyJoin (I ++ f ++ g)) acc (I.length + f.length)
      ⟨I.length + f.length + 1, I.length + f.length + g.length, 0, (g.getLast hg).length⟩
      (Or.inl (by simp)) (by rw [hseg2]; exact hgne)
    rw [this, hseg2]
  by_cases hI : I = []
  · subst hI
    have hstep1 : processNode (pyJoin ([] ++ f ++ g)) ⟨[], [], 0⟩
        (PyNode.decl ⟨([] : List String).length + 1, ([] : List String).length + f.length,
          0, (f.getLast hf).length⟩)
        = ⟨[pyJoin f], [], f.length⟩ := by
      have := processNode_decl_step (pyJoin ([] ++ f ++ g)) [] 0
        ⟨([] : List String).length + 1, ([] : List String).length + f.length, 0,
          (f.getLast hf).length⟩
        (Or.inl (by simp)) (by rw [hseg1]; exact hfne)
      rw [this, hseg1]
      simp [string_empty_append]
    have hchunks : astChunks (pyJoin ([] ++ f ++ g))
        ⟨[PyNode.decl ⟨([] : List String).length + 1, ([] : List String).length + f.length,
            0, (f.getLast hf).length⟩,
          PyNode.decl ⟨([] : List String).length + f.length + 1,
            ([] : List String).length + f.length + g.length, 0,
            (g.getLast hg).length⟩]⟩ = [pyJoin f, pyJoin g] := by
      simp only [astChunks, List.foldl_cons, List.foldl_nil, hstep1]
      have := hstep2 [pyJoin f]
      simp only [List.length_nil, Nat.zero_add] at this ⊢
      rw [this]
      have hdropall' : (pySplitlines (pyJoin (f ++ g))).drop (f.length + g.length) = [] := by
        simpa using hdropall
      have hrem : pyStrip (pyJoin ((pySplitlines (pyJoin (f ++ g))).drop
          (f.length + g.length))) = "" := by
        rw [hdropall']
        rfl
      simp [hrem]
    simp only [chunk_code_by_ast, hchunks]
    rw [if_neg (by simp)]
    simp [string_empty_append]
  · have hgetLastI : I.getLast hI ≠ "" :=
      isImportLine_ne_empty _ (hIimp _ (List.getLast_mem hI))
    have hIjoin_ne : pyJoin I ≠ "" := pyJoin_ne_empty I hI hgetLastI
    have hsplitI : pySplitlines (pyJoin I) = I :=
      pySplitlines_pyJoin I hI (fun l hl => hnl l (by simp [hl])) hgetLastI
    have hfilterI : I.filter isImportLine = I := List.filter_eq_self.mpr hIimp
    have hstep1 : processNode (pyJoin (I ++ f ++ g)) ⟨[], [], 0⟩
        (PyNode.decl ⟨I.length + 1, I.length + f.length, 0, (f.getLast hf).length⟩)
        = ⟨[pyJoin I ++ "\n" ++ pyJoin f], [], I.length + f.length⟩ := by
      have := processNode_decl_imports (pyJoin (I ++ f ++ g)) [] 0
        ⟨I.length + 1, I.length + f.length, 0, (f.getLast hf).length⟩ I hI
        (by simpa using List.length_pos.mpr hI)
        (by rw [hsplitAll]
            simp only [Nat.add_sub_cancel, Nat.sub_zero, List.drop_zero, List.append_assoc]
            exact List.take_left I (f ++ g))
        hIstrip hIjoin_ne hsplitI hfilterI
        (by rw [hseg1]; exact hfne)
      rw [this, hseg1]
      simp
    have hchunks : astChunks (pyJoin (I ++ f ++ g))
        ⟨[PyNode.decl ⟨I.length + 1, I.length + f.length, 0, (f.getLast hf).length⟩,
          PyNode.decl ⟨I.length + f.length + 1, I.length + f.length + g.length, 0,
            (g.getLast hg).length⟩]⟩
        = [pyJoin I ++ "\n" ++ pyJoin f, pyJoin g] := by
      simp only [astChunks, List.foldl_cons, List.foldl_nil, hstep1,
        hstep2 [pyJoin I ++ "\n" ++ pyJoin f]]
      simp only [hdropall]
      have hrem : pyStrip (pyJoin ([] : List String)) = "" := rfl
      simp [hrem]
    simp only [chunk_code_by_ast, hchunks]
    rw [if_neg (by simp)]
    simp [hI]

/-- Witness for C7: one import line before two one-line-body functions
— the first chunk is `"import os\ndef f():\n    return 1"`, the second
has no import prefix. -/
theorem C7_import_hoisting_witness :
    ((["def f():", "    return 1"] : List String) ≠ []
    ∧ (["def g():", "    return 2"] : List String) ≠ []
    ∧ (∀ l ∈ (["import os"] ++ ["def f():", "    return 1"]
        ++ ["def g():", "    return 2"] : List String), '\n' ∉ l.data)
    ∧ (∀ l ∈ (["import os"] : List String), isImportLine l = true)
    ∧ pyStrip (pyJoin ["import os"]) = pyJoin ["import os"])
    ∧ chunk_code_by_ast (pyJoin (["import os"] ++ ["def f():", "    return 1"]
          ++ ["def g():", "    return 2"]))
        (some ⟨[PyNode.decl ⟨(["import os"] : List String).length + 1,
            (["import os"] : List String).length
              + (["def f():", "    return 1"] : List String).length, 0,
            ((["def f():", "    return 1"] : List String).getLast (by decide)).length⟩,
          PyNode.decl ⟨(["import os"] : List String).length
              + (["def f():", "    return 1"] : List String).length + 1,
            (["import os"] : List String).length
              + (["def f():", "    return 1"] : List String).length
              + (["def g():", "    return 2"] : List String).length, 0,
            ((["def g():", "    return 2"] : List String).getLast (by decide)).length⟩]⟩)
      = [(if (["import os"] : List String) = [] then ""
            else pyJoin ["import os"] ++ "\n") ++ pyJoin ["def f():", "    return 1"],
          pyJoin ["def g():", "    return 2"]] := by
  refine ⟨⟨by decide, by decide, by decide, by decide, by decide⟩, ?_⟩
  exact C7_import_hoisting ["import os"] ["def f():", "    return 1"]
    ["def g():", "    return 2"] (by decide) (by decide) (by decide) (by decide)
    (by decide) (by decide) (by decide)

/-! ## Claim theorems: per-chunk totality (C10) -/

/-- C10: `analyze_chunk` is total exactly under the precondition that
the chunk text contains a non-whitespace character: in that case, for
*every* client behavior, it returns an outcome tagged with the chunk
number it was given and propagates no exception (both client failure
modes are converted into a diagnostic outcome); for whitespace-only or
empty chunk text, the first-line extraction before the `try` block
raises an `IndexError` that escapes the per-chunk error handling. -/
theorem C10_analyze_chunk_totality (client : AnalysisClient)
    (chunk_content : String) (chunk_number : Nat) :
    (hasContent chunk_content = true →
      ∃ o : Outcome, analyze_chunk client chunk_content chunk_number = .ok o
        ∧ o.chunk = chunk_number)
    ∧ (hasContent chunk_content = false →
      analyze_chunk client chunk_content chunk_number = .error .indexError) := by
  constructor
  · intro h
    exact ⟨expected_outcome client chunk_content chunk_number,
      analyze_chunk_ok client chunk_content chunk_number h,
      expected_outcome_chunk client chunk_content chunk_number⟩
  · intro h
    exact analyze_chunk_err client chunk_content chunk_number h

/-- Witness for C10: a content-bearing chunk yields a tagged outcome
even when the client raises; a whitespace-only chunk raises
`IndexError`. -/
theorem C10_analyze_chunk_totality_witness :
    (hasContent "x = 1" = true
      ∧ ∃ o : Outcome, analyze_chunk (fun _ _ => ClientResult.otherError "boom") "x = 1" 7
          = .ok o ∧ o.chunk = 7)
    ∧ (hasContent " \n " = false
      ∧ analyze_chunk (fun _ _ => ClientResult.ok "fine") " \n " 3
          = .error .indexError) :=
  ⟨⟨by decide, (C10_analyze_chunk_totality (fun _ _ => ClientResult.otherError "boom")
      "x = 1" 7).1 (by decide)⟩,
    ⟨by decide, (C10_analyze_chunk_totality (fun _ _ => ClientResult.ok "fine")
      " \n " 3).2 (by decide)⟩⟩

end SecureByte
